import Mathlib

/-!
Shallow embedding of the work-tracker time-accounting engine
(`src/lib/tracker-utils.ts`, `src/lib/tracker-data.ts`, and the dashboard
component's pure helpers) and proofs of the specification claims.

Modelling conventions:
* Instants are milliseconds since the epoch, as `Int` (JS `Date.getTime()`).
  The model fixes the local clock to a constant UTC offset with no DST, so
  the local calendar day of an instant is its floor-division day number and
  `Date.setDate` arithmetic is plain day arithmetic.
* JS `Math.floor(x / d)` for a positive literal `d` is floor division, which
  for positive divisors coincides with Lean's `Int` division `/` (`Int.ediv`);
  JS `Date.getDay` is a true modulus, `%` (`Int.emod`).
* `Date.toISOString()` is an injective encoding of an instant; the model
  renders it as the decimal string of the millisecond value.
* Fields of a time log that no claimed computation reads (userId, project and
  task names, note, location, source, createdAt, updatedAt) are omitted from
  the record; transitions leave them untouched in the source as well.
-/

def msPerMinute : Int := 60000

def msPerDay : Int := 86400000

/-- `LogStatus` from `tracker-types`: `"active" | "on-break" | "completed"`. -/
inductive LogStatus where
  | active
  | onBreak
  | completed
deriving DecidableEq, Repr

/-- `BreakRecord` from `tracker-types`: ISO start/end strings plus whole minutes. -/
structure BreakRecord where
  startTime : String
  endTime : String
  durationMinutes : Int
deriving DecidableEq, Repr

/-- `TimeLog` from `tracker-types`, restricted to the fields the engine computes with. -/
structure TimeLog where
  id : String
  startTime : Int
  endTime : Option Int
  totalMinutes : Int
  breakMinutes : Int
  breaks : List BreakRecord
  status : LogStatus
  breakStartedAt : Option Int
deriving DecidableEq, Repr

/-- Model of `Date.toISOString()`: an injective rendering of the instant. -/
def isoString (t : Int) : String := toString t

/-- `calculateWorkedMilliseconds` (`src/lib/tracker-utils.ts:82-92`).
`end = endTime ?? now`; gross, stored-break and running-break parts each
clamped exactly as in the source. -/
def calculateWorkedMilliseconds (log : TimeLog) (now : Int) : Int :=
  let e := log.endTime.getD now
  let durationMs := max 0 (e - log.startTime)
  let storedBreakMs := (max 0 log.breakMinutes) * msPerMinute
  let runningBreakMs :=
    if log.status = .onBreak then
      match log.breakStartedAt with
      | some b => max 0 (now - b)
      | none => 0
    else 0
  max 0 (durationMs - storedBreakMs - runningBreakMs)

/-- `calculateWorkedMinutes` (`src/lib/tracker-utils.ts:94-96`). -/
def calculateWorkedMinutes (log : TimeLog) (now : Int) : Int :=
  calculateWorkedMilliseconds log now / msPerMinute

/-- `getLogMinutes` (`src/lib/tracker-utils.ts:124-130`): branches on
`log.endTime` being non-null (a `Date` object is always truthy in JS). -/
def getLogMinutes (log : TimeLog) (now : Int) : Int :=
  match log.endTime with
  | some _ => max log.totalMinutes (calculateWorkedMinutes log now)
  | none => calculateWorkedMinutes log now

/-- C1: For every entry and every current instant, `calculateWorkedMilliseconds`
returns a non-negative value and never throws (the model is a total function),
even when `endTime` precedes `startTime`, breaks exceed gross time, or status
is on-break with no `breakStartedAt` recorded — in which case the running break
contributes zero, i.e. the result is exactly gross-minus-stored-breaks, clamped. -/
theorem calculateWorkedMilliseconds_nonneg_total (log : TimeLog) (now : Int) :
    0 ≤ calculateWorkedMilliseconds log now ∧
    (log.status = .onBreak → log.breakStartedAt = none →
      calculateWorkedMilliseconds log now =
        max 0 (max 0 (log.endTime.getD now - log.startTime) -
          (max 0 log.breakMinutes) * msPerMinute)) := by
  constructor
  · exact le_max_left 0 _
  · intro _ hb
    simp [calculateWorkedMilliseconds, hb]

/-- C1 witness: a corrupt on-break entry (end before start, no break start) still
yields a non-negative — indeed zero — worked duration. -/
theorem calculateWorkedMilliseconds_nonneg_total_witness :
    0 ≤ calculateWorkedMilliseconds
        ⟨"log1", 1000000, some 400000, 5, -3, [], .onBreak, none⟩ 2000000 ∧
      calculateWorkedMilliseconds
        ⟨"log1", 1000000, some 400000, 5, -3, [], .onBreak, none⟩ 2000000 =
        max 0 (max 0 ((some 400000).getD 2000000 - 1000000) - (max 0 (-3)) * msPerMinute) := by
  refine ⟨(calculateWorkedMilliseconds_nonneg_total _ 2000000).1, ?_⟩
  exact (calculateWorkedMilliseconds_nonneg_total
    ⟨"log1", 1000000, some 400000, 5, -3, [], .onBreak, none⟩ 2000000).2 rfl rfl

/-- C4: display/reporting minutes: a finished entry (non-null `endTime`; by the
data-model invariant this is exactly the completed state) reports
`max(totalMinutes, workedMinutes)` and hence never less than the persisted
snapshot; a still-running entry (null `endTime`) reports `workedMinutes` exactly. -/
theorem getLogMinutes_spec (log : TimeLog) (now : Int) :
    (log.endTime ≠ none →
      getLogMinutes log now = max log.totalMinutes (calculateWorkedMinutes log now) ∧
      log.totalMinutes ≤ getLogMinutes log now) ∧
    (log.endTime = none → getLogMinutes log now = calculateWorkedMinutes log now) := by
  constructor
  · intro h
    match he : log.endTime with
    | some e => exact ⟨by simp [getLogMinutes, he], by simp [getLogMinutes, he]⟩
    | none => exact absurd he h
  · intro h
    simp [getLogMinutes, h]

/-- C4 witness: a completed entry whose stale snapshot (200 min) exceeds the
recomputed 60 worked minutes still displays 200; a running copy displays its
recomputed minutes. -/
theorem getLogMinutes_spec_witness :
    getLogMinutes ⟨"a", 0, some 3600000, 200, 0, [], .completed, none⟩ 3600000 =
      max 200 (calculateWorkedMinutes ⟨"a", 0, some 3600000, 200, 0, [], .completed, none⟩ 3600000) ∧
    (200 : Int) ≤ getLogMinutes ⟨"a", 0, some 3600000, 200, 0, [], .completed, none⟩ 3600000 ∧
    getLogMinutes ⟨"b", 0, none, 200, 0, [], .active, none⟩ 3600000 =
      calculateWorkedMinutes ⟨"b", 0, none, 200, 0, [], .active, none⟩ 3600000 := by
  refine ⟨?_, ?_, ?_⟩
  · exact ((getLogMinutes_spec ⟨"a", 0, some 3600000, 200, 0, [], .completed, none⟩ 3600000).1
      (by simp)).1
  · exact ((getLogMinutes_spec ⟨"a", 0, some 3600000, 200, 0, [], .completed, none⟩ 3600000).1
      (by simp)).2
  · exact (getLogMinutes_spec ⟨"b", 0, none, 200, 0, [], .active, none⟩ 3600000).2 rfl

/-- Error values the lifecycle layer can surface to the caller. The source
throws plain `Error`s; `validationError` models the manual-log submit handler's
rejection message and `missingBreakStart` models `endBreak`'s
`"Break start time is missing."`. -/
inductive TrackerError where
  | validationError (message : String)
  | missingBreakStart
deriving DecidableEq, Repr

/-- `startBreak` (`src/lib/tracker-data.ts:396-403`): unconditionally writes
`status = "on-break"` and `breakStartedAt`; the source performs no status
check and can never fail. -/
def startBreak (log : TimeLog) (breakStartedAt : Int) : Except TrackerError TimeLog :=
  .ok { log with status := .onBreak, breakStartedAt := some breakStartedAt }

/-- `endBreak` (`src/lib/tracker-data.ts:405-432`): throws when
`breakStartedAt` is missing; otherwise folds the finished break into
`breakMinutes`/`breaks` and returns to `active`. -/
def endBreak (log : TimeLog) (breakEndedAt : Int) : Except TrackerError TimeLog :=
  match log.breakStartedAt with
  | none => .error .missingBreakStart
  | some b =>
      let breakDurationMinutes := max 0 ((breakEndedAt - b) / msPerMinute)
      .ok { log with
        status := .active
        breakStartedAt := none
        breakMinutes := log.breakMinutes + breakDurationMinutes
        breaks := log.breaks ++
          [⟨isoString b, isoString breakEndedAt, breakDurationMinutes⟩] }

/-- `clockOut` (`src/lib/tracker-data.ts:434-467`): folds an in-progress break
(status `on-break` with `breakStartedAt` present) into the clamped break total
and the breaks list, then completes the entry. Never fails. -/
def clockOut (log : TimeLog) (clockOutAt : Int) : Except TrackerError TimeLog :=
  let base := max 0 log.breakMinutes
  let folded :=
    if log.status = .onBreak then
      match log.breakStartedAt with
      | some b =>
          let inProgressBreakMinutes := max 0 ((clockOutAt - b) / msPerMinute)
          (base + inProgressBreakMinutes,
            log.breaks ++ [⟨isoString b, isoString clockOutAt, inProgressBreakMinutes⟩])
      | none => (base, log.breaks)
    else (base, log.breaks)
  let grossMinutes := max 0 ((clockOutAt - log.startTime) / msPerMinute)
  let totalMinutes := max 0 (grossMinutes - folded.1)
  .ok { log with
    endTime := some clockOutAt
    totalMinutes := totalMinutes
    breakMinutes := folded.1
    breaks := folded.2
    breakStartedAt := none
    status := .completed }

/-- The manual-log flow: the submit handler's timestamp validation
(`src/unnamed/part_000:633-666`, `handleManualSubmit`: rejects unless
`endTime > startTime`) followed by the entry construction of `addManualLog`
(`src/lib/tracker-data.ts:369-394`). -/
def manualLog (id : String) (startTime endTime : Int) : Except TrackerError TimeLog :=
  if endTime ≤ startTime then
    .error (.validationError "Manual log needs a valid date and an end time after start time.")
  else
    let durationMinutes := max 0 ((endTime - startTime) / msPerMinute)
    .ok { id := id
          startTime := startTime
          endTime := some endTime
          totalMinutes := durationMinutes
          breakMinutes := 0
          breaks := []
          status := .completed
          breakStartedAt := none }

/-- Helper: `clockOut` on an entry that is not on break folds nothing. -/
theorem clockOut_eq_of_not_onBreak (log : TimeLog) (t : Int) (h : log.status ≠ .onBreak) :
    clockOut log t = .ok { log with
      endTime := some t
      totalMinutes := max 0 (max 0 ((t - log.startTime) / msPerMinute) - max 0 log.breakMinutes)
      breakMinutes := max 0 log.breakMinutes
      breaks := log.breaks
      breakStartedAt := none
      status := .completed } := by
  simp [clockOut, h]

/-- Helper: `clockOut` on an on-break entry with a recorded break start folds the
in-progress break first. -/
theorem clockOut_eq_of_onBreak (log : TimeLog) (t b : Int) (hst : log.status = .onBreak)
    (hb : log.breakStartedAt = some b) :
    clockOut log t = .ok { log with
      endTime := some t
      totalMinutes := max 0 (max 0 ((t - log.startTime) / msPerMinute) -
        (max 0 log.breakMinutes + max 0 ((t - b) / msPerMinute)))
      breakMinutes := max 0 log.breakMinutes + max 0 ((t - b) / msPerMinute)
      breaks := log.breaks ++ [⟨isoString b, isoString t, max 0 ((t - b) / msPerMinute)⟩]
      breakStartedAt := none
      status := .completed } := by
  simp [clockOut, hst, hb]

/-- Helper: `endBreak` with a recorded break start. -/
theorem endBreak_eq_of_some (log : TimeLog) (t b : Int) (hb : log.breakStartedAt = some b) :
    endBreak log t = .ok { log with
      status := .active
      breakStartedAt := none
      breakMinutes := log.breakMinutes + max 0 ((t - b) / msPerMinute)
      breaks := log.breaks ++ [⟨isoString b, isoString t, max 0 ((t - b) / msPerMinute)⟩] } := by
  simp [endBreak, hb]

/-- C2: `clockOut` at `atInstant`, on an entry satisfying the data-model invariant
`breakMinutes ≥ 0`, completes the entry with `end = atInstant`, `breakStartedAt`
cleared, and `totalMinutes = max(0, floor((atInstant − startTime)/60000) − breakMinutes)`,
where an in-progress break (status on-break with `breakStartedAt` present) is first
folded into `breakMinutes` and the breaks list using `atInstant` as the break's end. -/
theorem clockOut_spec (log : TimeLog) (t : Int) (hbm : 0 ≤ log.breakMinutes) :
    (log.status ≠ .onBreak →
      clockOut log t = .ok { log with
        endTime := some t
        totalMinutes := max 0 (max 0 ((t - log.startTime) / msPerMinute) - log.breakMinutes)
        breakMinutes := log.breakMinutes
        breaks := log.breaks
        breakStartedAt := none
        status := .completed }) ∧
    (∀ b, log.status = .onBreak → log.breakStartedAt = some b →
      clockOut log t = .ok { log with
        endTime := some t
        totalMinutes := max 0 (max 0 ((t - log.startTime) / msPerMinute) -
          (log.breakMinutes + max 0 ((t - b) / msPerMinute)))
        breakMinutes := log.breakMinutes + max 0 ((t - b) / msPerMinute)
        breaks := log.breaks ++ [⟨isoString b, isoString t, max 0 ((t - b) / msPerMinute)⟩]
        breakStartedAt := none
        status := .completed }) := by
  have hclamp : max 0 log.breakMinutes = log.breakMinutes := by omega
  constructor
  · intro h
    rw [clockOut_eq_of_not_onBreak log t h, hclamp]
  · intro b hst hb
    rw [clockOut_eq_of_onBreak log t b hst hb, hclamp]

/-- C2 witness: entry starting 09:00 with a recorded 12:00–12:30 break (30 min),
clocked out at 17:00: grossMinutes = 480, breakMinutes = 30, totalMinutes = 450. -/
theorem clockOut_spec_witness :
    (0 : Int) ≤ 30 ∧
    max 0 ((61200000 - 32400000 : Int) / msPerMinute) = 480 ∧
    clockOut ⟨"w2", 32400000, none, 0, 30,
        [⟨isoString 43200000, isoString 45000000, 30⟩], .active, none⟩ 61200000 =
      .ok ⟨"w2", 32400000, some 61200000, 450, 30,
        [⟨isoString 43200000, isoString 45000000, 30⟩], .completed, none⟩ := by
  refine ⟨by norm_num, by decide, ?_⟩
  have h := (clockOut_spec ⟨"w2", 32400000, none, 0, 30,
      [⟨isoString 43200000, isoString 45000000, 30⟩], .active, none⟩ 61200000
      (by norm_num)).1 (by decide)
  rw [h]
  rfl

/-- C3: from an on-break entry with a recorded break start and a non-negative
break total (the data-model invariant), `endBreak` at `t` followed immediately by
`clockOut` at the same `t` yields exactly the same resulting entry — in particular
the same break minutes, breaks list and totalMinutes — as a single `clockOut` at `t`. -/
theorem endBreak_clockOut_decomposition (log : TimeLog) (t b : Int)
    (hst : log.status = .onBreak) (hb : log.breakStartedAt = some b)
    (hbm : 0 ≤ log.breakMinutes) :
    (endBreak log t).bind (fun l => clockOut l t) = clockOut log t := by
  have hd : (0 : Int) ≤ max 0 ((t - b) / msPerMinute) := le_max_left 0 _
  rw [endBreak_eq_of_some log t b hb]
  show clockOut _ t = clockOut log t
  rw [clockOut_eq_of_not_onBreak _ t (by simp), clockOut_eq_of_onBreak log t b hst hb]
  have hmax : max 0 (log.breakMinutes + max 0 ((t - b) / msPerMinute)) =
      max 0 log.breakMinutes + max 0 ((t - b) / msPerMinute) := by omega
  simp [hmax]

/-- C3 witness: on-break entry (start 09:00, 25 prior break minutes, current break
since 16:00): ending the break at 17:00 then clocking out at 17:00 equals one
direct clock-out at 17:00. -/
theorem endBreak_clockOut_decomposition_witness :
    (endBreak ⟨"w3", 32400000, none, 0, 25, [], .onBreak, some 57600000⟩ 61200000).bind
        (fun l => clockOut l 61200000) =
      clockOut ⟨"w3", 32400000, none, 0, 25, [], .onBreak, some 57600000⟩ 61200000 :=
  endBreak_clockOut_decomposition ⟨"w3", 32400000, none, 0, 25, [], .onBreak, some 57600000⟩
    61200000 57600000 rfl rfl (by norm_num)

/-- C7 counterexample: `startBreak` applied to an already-completed entry does not
fail — it succeeds and mutates the entry to on-break, contradicting the claim that
it fails with `InvalidStateError` and leaves the entry unchanged. -/
theorem startBreak_completed_counterexample :
    startBreak ⟨"c7", 0, some 3600000, 60, 0, [], .completed, none⟩ 7200000 =
      .ok ⟨"c7", 0, some 3600000, 60, 0, [], .onBreak, some 7200000⟩ ∧
    (⟨"c7", 0, some 3600000, 60, 0, [], .onBreak, some 7200000⟩ : TimeLog) ≠
      ⟨"c7", 0, some 3600000, 60, 0, [], .completed, none⟩ := by
  exact ⟨rfl, by decide⟩

/-- C7 amended: `startBreak` never fails: from every state it succeeds, setting
status to on-break and `breakStartedAt` to the given instant and leaving every
other field unchanged. (The source performs no status check; the UI only invokes
it on the single active entry, toggling to `endBreak` when already on break.) -/
theorem startBreak_spec (log : TimeLog) (t : Int) :
    ∃ next, startBreak log t = .ok next ∧
      next.status = .onBreak ∧ next.breakStartedAt = some t ∧
      next.id = log.id ∧ next.startTime = log.startTime ∧ next.endTime = log.endTime ∧
      next.totalMinutes = log.totalMinutes ∧ next.breakMinutes = log.breakMinutes ∧
      next.breaks = log.breaks :=
  ⟨_, rfl, rfl, rfl, rfl, rfl, rfl, rfl, rfl, rfl⟩

/-- C8: the manual-log flow with `endInstant ≤ startInstant` fails with a
validation error and creates no entry; with `endInstant > startInstant` it creates
a completed entry with `totalMinutes = max(0, floor((end − start)/60000))`,
a non-null end, and zero breaks. -/
theorem manualLog_spec (id : String) (s e : Int) :
    (e ≤ s → manualLog id s e =
      .error (.validationError
        "Manual log needs a valid date and an end time after start time.")) ∧
    (s < e → manualLog id s e =
      .ok ⟨id, s, some e, max 0 ((e - s) / msPerMinute), 0, [], .completed, none⟩ ∧
      0 ≤ max 0 ((e - s) / msPerMinute)) := by
  constructor
  · intro h
    simp [manualLog, h]
  · intro h
    refine ⟨?_, le_max_left 0 _⟩
    rw [manualLog, if_neg (by omega)]

/-- C8 witness: equal timestamps are rejected; a 65-minute span (09:00–10:05)
creates a completed 65-minute entry with no breaks. -/
theorem manualLog_spec_witness :
    manualLog "m1" 1000 1000 =
      .error (.validationError
        "Manual log needs a valid date and an end time after start time.") ∧
    manualLog "m2" 32400000 36300000 =
      .ok ⟨"m2", 32400000, some 36300000, max 0 ((36300000 - 32400000 : Int) / msPerMinute),
        0, [], .completed, none⟩ := by
  refine ⟨(manualLog_spec "m1" 1000 1000).1 le_rfl, ?_⟩
  exact ((manualLog_spec "m2" 32400000 36300000).2 (by norm_num)).1

/-- A raw document field that may hold a JS number: a finite double (modelled as
a rational), `NaN`, or a value that is not a number at all. -/
inductive JSNum where
  | num (q : ℚ)
  | nan
  | notNumber
deriving DecidableEq, Repr

/-- `readNumber` (`src/lib/tracker-data.ts:53-58`): non-numbers and `NaN` fall
back (default fallback 0). -/
def readNumber (value : JSNum) (fallback : ℚ) : ℚ :=
  match value with
  | .num q => q
  | _ => fallback

/-- One element of a raw `breaks` array: either not an object, or an object whose
`startTime`/`endTime` are strings only when `some`, with a raw numeric duration. -/
inductive RawBreakEntry where
  | notObject
  | object (startTime endTime : Option String) (durationMinutes : JSNum)
deriving DecidableEq, Repr

/-- `normalizeBreaks` (`src/lib/tracker-data.ts:117-140`): non-arrays become `[]`;
elements that are not objects or lack string start/end are dropped; durations are
floored and clamped to ≥ 0. (The source maps to `BreakRecord | null` then filters
nulls; `filterMap` is that composite.) -/
def normalizeBreaks (value : Option (List RawBreakEntry)) : List BreakRecord :=
  match value with
  | none => []
  | some entries =>
      entries.filterMap (fun entry =>
        match entry with
        | .notObject => none
        | .object st et dm =>
            match st, et with
            | some s, some e => some ⟨s, e, max 0 ⌊readNumber dm 0⌋⟩
            | _, _ => none)

/-- `normalizeStatus` (`src/lib/tracker-data.ts:110-115`): `none` models a raw
value that is not a string; anything unrecognized maps to completed. -/
def normalizeStatus (value : Option String) : LogStatus :=
  match value with
  | some "active" => .active
  | some "on-break" => .onBreak
  | some "completed" => .completed
  | _ => .completed

/-- A raw Firestore document as `normalizeTimeLog` reads it: date-like fields are
modelled post-`readDate` (an instant when parseable, else `none`), numeric fields
as raw `JSNum`s, `breaks` as `none` when not an array, `status` as `none` when
not a string. -/
structure RawDoc where
  startTime : Option Int
  createdAt : Option Int
  endTime : Option Int
  totalMinutes : JSNum
  breakMinutes : JSNum
  breaks : Option (List RawBreakEntry)
  status : Option String
  breakStartedAt : Option Int
deriving DecidableEq, Repr

/-- `normalizeTimeLog` (`src/lib/tracker-data.ts:185-208`) restricted to the
engine fields; `now` is the injected clock standing for the `new Date()`
fallback. Integrality of the minute fields is captured by the `Int`-valued
floor in the model. -/
def normalizeTimeLog (id : String) (data : RawDoc) (now : Int) : TimeLog :=
  let startTime := (data.startTime.or data.createdAt).getD now
  { id := id
    startTime := startTime
    endTime := data.endTime
    totalMinutes := max 0 ⌊readNumber data.totalMinutes 0⌋
    breakMinutes := max 0 ⌊readNumber data.breakMinutes 0⌋
    breaks := normalizeBreaks data.breaks
    status := normalizeStatus data.status
    breakStartedAt := data.breakStartedAt }

/-- C10: every entry produced by `normalizeTimeLog` satisfies the numeric
data-model invariants however corrupt the raw document is: `totalMinutes` and
`breakMinutes` are non-negative (whole, by the integer codomain of the floor),
every break record's duration is non-negative, `startTime` falls back from the
raw start to `createdAt` and then to the current instant, and the status is one
of the three legal states with anything unrecognized mapped to completed. -/
theorem normalizeTimeLog_invariants (id : String) (data : RawDoc) (now : Int) :
    0 ≤ (normalizeTimeLog id data now).totalMinutes ∧
    0 ≤ (normalizeTimeLog id data now).breakMinutes ∧
    (∀ b ∈ (normalizeTimeLog id data now).breaks, 0 ≤ b.durationMinutes) ∧
    (∀ t, data.startTime = some t → (normalizeTimeLog id data now).startTime = t) ∧
    (∀ c, data.startTime = none → data.createdAt = some c →
      (normalizeTimeLog id data now).startTime = c) ∧
    (data.startTime = none → data.createdAt = none →
      (normalizeTimeLog id data now).startTime = now) ∧
    ((normalizeTimeLog id data now).status = .active ∨
      (normalizeTimeLog id data now).status = .onBreak ∨
      (normalizeTimeLog id data now).status = .completed) ∧
    (data.status ≠ some "active" → data.status ≠ some "on-break" →
      (normalizeTimeLog id data now).status = .completed) := by
  refine ⟨le_max_left 0 _, le_max_left 0 _, ?_, ?_, ?_, ?_, ?_, ?_⟩
  · intro b hb
    simp only [normalizeTimeLog, normalizeBreaks] at hb
    match hdb : data.breaks with
    | none => rw [hdb] at hb; simp at hb
    | some entries =>
        rw [hdb] at hb
        rcases List.mem_filterMap.mp hb with ⟨entry, _, hentry⟩
        match entry with
        | .notObject => simp at hentry
        | .object st et dm =>
            match st, et with
            | some s, some e =>
                simp only [Option.some.injEq] at hentry
                rw [← hentry]
                exact le_max_left 0 _
            | some _, none => simp at hentry
            | none, _ => simp at hentry
  · intro t ht
    simp [normalizeTimeLog, ht, Option.or]
  · intro c hs hc
    simp [normalizeTimeLog, hs, hc, Option.or]
  · intro hs hc
    simp [normalizeTimeLog, hs, hc, Option.or]
  · cases hst : normalizeStatus data.status with
    | active => exact Or.inl (by simp [normalizeTimeLog, hst])
    | onBreak => exact Or.inr (Or.inl (by simp [normalizeTimeLog, hst]))
    | completed => exact Or.inr (Or.inr (by simp [normalizeTimeLog, hst]))
  · intro h1 h2
    show normalizeStatus data.status = .completed
    match hds : data.status with
    | none => rfl
    | some s =>
        rw [hds] at h1 h2
        by_cases hcomp : s = "completed"
        · simp [normalizeStatus, hcomp]
        · have h1' : s ≠ "active" := fun h => h1 (by rw [h])
          have h2' : s ≠ "on-break" := fun h => h2 (by rw [h])
          simp [normalizeStatus, hcomp, h1', h2']

/-- A thoroughly corrupt raw document: fractional negative totals, NaN break
minutes, junk break entries, an unknown status string, and an unparseable start
with a parseable createdAt. -/
def rawDocExample : RawDoc :=
  { startTime := none
    createdAt := some 1234
    endTime := none
    totalMinutes := .num (-7/2)
    breakMinutes := .nan
    breaks := some [.notObject, .object (some "x") none .nan,
      .object (some "a") (some "b") (.num (-9/4))]
    status := some "weird"
    breakStartedAt := none }

/-- C10 witness: a thoroughly corrupt document — fractional negative totals, NaN
break minutes, junk break entries, unknown status, unparseable start but a
parseable createdAt — normalizes to a legal entry. -/
theorem normalizeTimeLog_invariants_witness :
    0 ≤ (normalizeTimeLog "r" rawDocExample 5000).totalMinutes ∧
    0 ≤ (normalizeTimeLog "r" rawDocExample 5000).breakMinutes ∧
    (∀ b ∈ (normalizeTimeLog "r" rawDocExample 5000).breaks, 0 ≤ b.durationMinutes) ∧
    (normalizeTimeLog "r" rawDocExample 5000).startTime = 1234 ∧
    (normalizeTimeLog "r" rawDocExample 5000).status = .completed := by
  have h := normalizeTimeLog_invariants "r" rawDocExample 5000
  refine ⟨h.1, h.2.1, h.2.2.1, ?_, ?_⟩
  · exact h.2.2.2.2.1 1234 rfl rfl
  · exact h.2.2.2.2.2.2.2 (by decide) (by decide)

/-- Day number 0 is 1970-01-01, a Thursday (`Date.getDay() = 4`); JS weekday
index 0 = Sunday. -/
def dayOfWeek (d : Int) : Int := (d + 4) % 7

/-- `toDayKey` (`src/lib/tracker-utils.ts:75-80`) renders the local calendar day
as `"YYYY-MM-DD"`; calendar-day strings are in bijection with day numbers, so
the model keys by the day number of the instant. -/
def toDayKey (t : Int) : Int := t / msPerDay

/-- `setHours(0, 0, 0, 0)`: truncate an instant to local midnight. -/
def atMidnight (t : Int) : Int := (t / msPerDay) * msPerDay

/-- `Date.getDay()` of an instant. -/
def getDayOfInstant (t : Int) : Int := dayOfWeek (t / msPerDay)

/-- Day number of a proleptic-Gregorian civil date (1-based month), the standard
era-based computation; models the host `Date`'s calendar. -/
def daysFromCivil (y m d : Int) : Int :=
  let yAdj := if m ≤ 2 then y - 1 else y
  let era := yAdj / 400
  let yoe := yAdj - era * 400
  let mp := (m + 9) % 12
  let doy := (153 * mp + 2) / 5 + d - 1
  let doe := yoe * 365 + yoe / 4 - yoe / 100 + doy
  era * 146097 + doe - 719468

/-- `getWorkWeekStartMonday` (`src/unnamed/part_000:127-137`): midnight of the
start day, rolled back one day when it is a Sunday, then snapped back by the
Monday-relative weekday index. -/
def getWorkWeekStartMonday (t : Int) : Int :=
  let m0 := atMidnight t
  let m1 := if getDayOfInstant m0 = 0 then m0 - msPerDay else m0
  let mondayIndex := (getDayOfInstant m1 + 6) % 7
  m1 - mondayIndex * msPerDay

/-- `getWorkWeekEndSaturday` (`src/unnamed/part_000:139-144`): five days after
the week start, at 23:59:59.999 local time. -/
def getWorkWeekEndSaturday (startDate : Int) : Int :=
  atMidnight (startDate + 5 * msPerDay) + (msPerDay - 1)

/-- `WorkWeekGroup` (`src/unnamed/part_000:81-87`), keyed by the week-start day
number (the source keys by its day string). -/
structure WorkWeekGroup where
  key : Int
  startDate : Int
  endDate : Int
  logs : List TimeLog
  totalMinutes : Int
deriving DecidableEq, Repr

/-- Mutating the matching group of the `Map` in place: append the log and add
its display minutes. JS map keys are unique, so only the first match counts. -/
def pushIntoGroup (now : Int) (log : TimeLog) (weekKey : Int) :
    List WorkWeekGroup → List WorkWeekGroup
  | [] => []
  | g :: rest =>
      if g.key = weekKey then
        { g with logs := g.logs ++ [log],
                 totalMinutes := g.totalMinutes + getLogMinutes log now } :: rest
      else g :: pushIntoGroup now log weekKey rest

/-- One iteration of the grouping loop (`src/unnamed/part_000:152-170`): create
the week bucket if absent (insertion appends, as a JS `Map` does), then push
the log into it. -/
def addLogToGroups (now : Int) (groups : List WorkWeekGroup) (log : TimeLog) :
    List WorkWeekGroup :=
  let weekStart := getWorkWeekStartMonday log.startTime
  let weekKey := toDayKey weekStart
  if groups.any (fun g => g.key = weekKey) then
    pushIntoGroup now log weekKey groups
  else
    groups ++ [{ key := weekKey, startDate := weekStart,
                 endDate := getWorkWeekEndSaturday weekStart,
                 logs := [log], totalMinutes := getLogMinutes log now }]

/-- `groupLogsByWorkWeek` (`src/unnamed/part_000:146-175`): sort by start
ascending, fold into the keyed buckets, emit buckets sorted by start date. -/
def groupLogsByWorkWeek (logs : List TimeLog) (now : Int) : List WorkWeekGroup :=
  let sortedLogs := logs.mergeSort (fun l r => l.startTime ≤ r.startTime)
  let groups := sortedLogs.foldl (addLogToGroups now) []
  groups.mergeSort (fun l r => l.startDate ≤ r.startDate)

/-- Helper: the week start is a local midnight, is a Monday, and is obtained by
rolling a Sunday start day back one day and then snapping to that week's Monday;
the (rolled-back) start day lies in the Monday..Saturday span of its bucket. -/
theorem getWorkWeekStartMonday_char (t : Int) :
    getWorkWeekStartMonday t =
      (let d := t / msPerDay
       let d' := if (d + 4) % 7 = 0 then d - 1 else d
       (d' - ((d' + 4) % 7 - 1)) * msPerDay) ∧
    atMidnight (getWorkWeekStartMonday t) = getWorkWeekStartMonday t ∧
    dayOfWeek (getWorkWeekStartMonday t / msPerDay) = 1 ∧
    getWorkWeekStartMonday t / msPerDay ≤
      (if (t / msPerDay + 4) % 7 = 0 then t / msPerDay - 1 else t / msPerDay) ∧
    (if (t / msPerDay + 4) % 7 = 0 then t / msPerDay - 1 else t / msPerDay) ≤
      getWorkWeekStartMonday t / msPerDay + 5 := by
  simp only [getWorkWeekStartMonday, atMidnight, getDayOfInstant, dayOfWeek, toDayKey, msPerDay]
  split_ifs <;> constructor <;> try constructor
  all_goals omega

/-- Structural invariant of every emitted bucket: the start date is the key's
midnight and the end date is the derived Saturday. -/
def groupInv (g : WorkWeekGroup) : Prop :=
  g.startDate = g.key * msPerDay ∧ g.endDate = getWorkWeekEndSaturday g.startDate

/-- The bucket that a given log belongs to, with the claimed fields. -/
def goodFor (log : TimeLog) (g : WorkWeekGroup) : Prop :=
  log ∈ g.logs ∧ g.key = toDayKey (getWorkWeekStartMonday log.startTime) ∧
  g.startDate = getWorkWeekStartMonday log.startTime ∧
  g.endDate = getWorkWeekEndSaturday (getWorkWeekStartMonday log.startTime)

/-- Helper: the week start is its own day's midnight, so the key recovers it. -/
theorem getWorkWeekStartMonday_key (t : Int) :
    toDayKey (getWorkWeekStartMonday t) * msPerDay = getWorkWeekStartMonday t := by
  have h := (getWorkWeekStartMonday_char t).2.1
  simpa [atMidnight, toDayKey] using h


theorem pushIntoGroup_inv (now : Int) (log : TimeLog) (k : Int) :
    ∀ acc : List WorkWeekGroup, (∀ g ∈ acc, groupInv g) →
      ∀ g ∈ pushIntoGroup now log k acc, groupInv g := by
  intro acc
  induction acc with
  | nil => intro _ g hg; simp [pushIntoGroup] at hg
  | cons head rest ih =>
      intro hinv g hg
      by_cases hk : head.key = k
      · rw [pushIntoGroup, if_pos hk] at hg
        rcases List.mem_cons.mp hg with h | h
        · subst h
          exact ⟨(hinv head (by simp)).1, (hinv head (by simp)).2⟩
        · exact hinv g (List.mem_cons_of_mem head h)
      · rw [pushIntoGroup, if_neg hk] at hg
        rcases List.mem_cons.mp hg with h | h
        · subst h; exact hinv g (by simp)
        · exact ih (fun g' hg' => hinv g' (List.mem_cons_of_mem head hg')) g h

theorem addLogToGroups_inv (now : Int) (log : TimeLog) (acc : List WorkWeekGroup)
    (hinv : ∀ g ∈ acc, groupInv g) : ∀ g ∈ addLogToGroups now acc log, groupInv g := by
  intro g hg
  rw [addLogToGroups] at hg
  split at hg
  · exact pushIntoGroup_inv now log _ acc hinv g hg
  · rcases List.mem_append.mp hg with h | h
    · exact hinv g h
    · simp only [List.mem_singleton] at h
      subst h
      exact ⟨(getWorkWeekStartMonday_key log.startTime).symm, rfl⟩

theorem pushIntoGroup_preserves_good (now : Int) (log log' : TimeLog) (k : Int) :
    ∀ acc : List WorkWeekGroup, ∀ g ∈ acc, goodFor log g →
      ∃ g' ∈ pushIntoGroup now log' k acc, goodFor log g' := by
  intro acc
  induction acc with
  | nil => intro g hg; simp at hg
  | cons head rest ih =>
      intro g hg hgood
      by_cases hk : head.key = k
      · rcases List.mem_cons.mp hg with h | h
        · subst h
          refine ⟨_, by rw [pushIntoGroup, if_pos hk]; exact List.mem_cons_self _ _, ?_⟩
          exact ⟨List.mem_append_left _ hgood.1, hgood.2.1, hgood.2.2.1, hgood.2.2.2⟩
        · exact ⟨g, by rw [pushIntoGroup, if_pos hk]; exact List.mem_cons_of_mem _ h, hgood⟩
      · rcases List.mem_cons.mp hg with h | h
        · subst h
          exact ⟨g, by rw [pushIntoGroup, if_neg hk]; exact List.mem_cons_self _ _, hgood⟩
        · rcases ih g h hgood with ⟨g', hg', hgood'⟩
          exact ⟨g', by rw [pushIntoGroup, if_neg hk]; exact List.mem_cons_of_mem _ hg', hgood'⟩

theorem addLogToGroups_preserves_good (now : Int) (log log' : TimeLog)
    (acc : List WorkWeekGroup) (g : WorkWeekGroup) (hg : g ∈ acc) (hgood : goodFor log g) :
    ∃ g' ∈ addLogToGroups now acc log', goodFor log g' := by
  rw [addLogToGroups]
  split
  · exact pushIntoGroup_preserves_good now log log' _ acc g hg hgood
  · exact ⟨g, List.mem_append_left _ hg, hgood⟩

theorem pushIntoGroup_creates_good (now : Int) (log : TimeLog) :
    ∀ acc : List WorkWeekGroup, (∀ g ∈ acc, groupInv g) →
      (∃ g ∈ acc, g.key = toDayKey (getWorkWeekStartMonday log.startTime)) →
      ∃ g' ∈ pushIntoGroup now log (toDayKey (getWorkWeekStartMonday log.startTime)) acc,
        goodFor log g' := by
  intro acc
  induction acc with
  | nil => intro _ hhas; simp at hhas
  | cons head rest ih =>
      intro hinv hhas
      by_cases hk : head.key = toDayKey (getWorkWeekStartMonday log.startTime)
      · refine ⟨_, by rw [pushIntoGroup, if_pos hk]; exact List.mem_cons_self _ _, ?_⟩
        have hstart : head.startDate = getWorkWeekStartMonday log.startTime := by
          rw [(hinv head (by simp)).1, hk, getWorkWeekStartMonday_key]
        exact ⟨List.mem_append_right _ (by simp), hk, hstart,
          by rw [(hinv head (by simp)).2, hstart]⟩
      · have hhas' : ∃ g ∈ rest, g.key = toDayKey (getWorkWeekStartMonday log.startTime) := by
          rcases hhas with ⟨g, hg, hgk⟩
          rcases List.mem_cons.mp hg with h | h
          · exact absurd (h ▸ hgk) hk
          · exact ⟨g, h, hgk⟩
        rcases ih (fun g' hg' => hinv g' (List.mem_cons_of_mem head hg')) hhas' with
          ⟨g', hg', hgood'⟩
        exact ⟨g', by rw [pushIntoGroup, if_neg hk]; exact List.mem_cons_of_mem _ hg', hgood'⟩

theorem addLogToGroups_creates_good (now : Int) (log : TimeLog) (acc : List WorkWeekGroup)
    (hinv : ∀ g ∈ acc, groupInv g) :
    ∃ g' ∈ addLogToGroups now acc log, goodFor log g' := by
  rw [addLogToGroups]
  split
  · next hany =>
      refine pushIntoGroup_creates_good now log acc hinv ?_
      rcases List.any_eq_true.mp hany with ⟨g, hg, hgk⟩
      exact ⟨g, hg, of_decide_eq_true hgk⟩
  · refine ⟨⟨toDayKey (getWorkWeekStartMonday log.startTime),
        getWorkWeekStartMonday log.startTime,
        getWorkWeekEndSaturday (getWorkWeekStartMonday log.startTime),
        [log], getLogMinutes log now⟩,
      List.mem_append_right _ (by simp), ?_⟩
    exact ⟨by simp, rfl, rfl, rfl⟩

theorem foldl_preserves_good (now : Int) (log : TimeLog) :
    ∀ (l : List TimeLog) (acc : List WorkWeekGroup), ∀ g ∈ acc, goodFor log g →
      ∃ g' ∈ l.foldl (addLogToGroups now) acc, goodFor log g' := by
  intro l
  induction l with
  | nil => intro acc g hg hgood; exact ⟨g, hg, hgood⟩
  | cons x xs ih =>
      intro acc g hg hgood
      rcases addLogToGroups_preserves_good now log x acc g hg hgood with ⟨g', hg', hgood'⟩
      exact ih (addLogToGroups now acc x) g' hg' hgood'

theorem foldl_creates_good (now : Int) (log : TimeLog) :
    ∀ (l : List TimeLog) (acc : List WorkWeekGroup), log ∈ l → (∀ g ∈ acc, groupInv g) →
      ∃ g ∈ l.foldl (addLogToGroups now) acc, goodFor log g := by
  intro l
  induction l with
  | nil => intro acc hmem _; simp at hmem
  | cons x xs ih =>
      intro acc hmem hinv
      rcases List.mem_cons.mp hmem with h | h
      · subst h
        rcases addLogToGroups_creates_good now log acc hinv with ⟨g, hg, hgood⟩
        exact foldl_preserves_good now log xs _ g hg hgood
      · exact ih (addLogToGroups now acc x) h (addLogToGroups_inv now x acc hinv)

/-- C5: every entry is assigned to the bucket keyed by the Monday at local
midnight of the week containing its start instant, a start falling on Sunday
being rolled back one day first and then snapped to Monday — so the (rolled-back)
start day lies in the bucket's Monday..Saturday span — and the bucket's span ends
five days after the Monday at 23:59:59.999. -/
theorem groupLogsByWorkWeek_spec (logs : List TimeLog) (now : Int) (log : TimeLog)
    (hmem : log ∈ logs) :
    ∃ g ∈ groupLogsByWorkWeek logs now,
      log ∈ g.logs ∧
      g.startDate = getWorkWeekStartMonday log.startTime ∧
      g.key = toDayKey g.startDate ∧
      g.endDate = getWorkWeekEndSaturday g.startDate ∧
      atMidnight g.startDate = g.startDate ∧
      dayOfWeek (g.startDate / msPerDay) = 1 ∧
      g.startDate / msPerDay ≤
        (if (log.startTime / msPerDay + 4) % 7 = 0 then log.startTime / msPerDay - 1
         else log.startTime / msPerDay) ∧
      (if (log.startTime / msPerDay + 4) % 7 = 0 then log.startTime / msPerDay - 1
       else log.startTime / msPerDay) ≤ g.startDate / msPerDay + 5 := by
  have hmem' : log ∈ logs.mergeSort (fun l r => l.startTime ≤ r.startTime) :=
    List.mem_mergeSort.mpr hmem
  rcases foldl_creates_good now log (logs.mergeSort (fun l r => l.startTime ≤ r.startTime))
    [] hmem' (by simp) with ⟨g, hg, hgood⟩
  have hchar := getWorkWeekStartMonday_char log.startTime
  refine ⟨g, ?_, hgood.1, hgood.2.2.1, ?_, ?_, ?_, ?_, ?_, ?_⟩
  · rw [groupLogsByWorkWeek]
    exact List.mem_mergeSort.mpr hg
  · rw [hgood.2.2.1]; exact hgood.2.1
  · rw [hgood.2.2.1]; exact hgood.2.2.2
  · rw [hgood.2.2.1]; exact hchar.2.1
  · rw [hgood.2.2.1]; exact hchar.2.2.1
  · rw [hgood.2.2.1]; exact hchar.2.2.2.1
  · rw [hgood.2.2.1]; exact hchar.2.2.2.2

/-- An entry starting Sunday 2024-03-10 at 10:00 local time. -/
def sundayLog : TimeLog :=
  ⟨"sun", 19792 * msPerDay + 36000000, some (19792 * msPerDay + 39600000),
    60, 0, [], .completed, none⟩

/-- C5 witness: 2024-03-10 is day 19792, a Sunday; the entry lands in the bucket
keyed by Monday 2024-03-04 (day 19786) whose span ends Saturday 2024-03-09 at
23:59:59.999. -/
theorem groupLogsByWorkWeek_spec_witness :
    daysFromCivil 2024 3 10 = 19792 ∧
    dayOfWeek (daysFromCivil 2024 3 10) = 0 ∧
    daysFromCivil 2024 3 4 = 19786 ∧
    dayOfWeek (daysFromCivil 2024 3 4) = 1 ∧
    ∃ g ∈ groupLogsByWorkWeek [sundayLog] 0,
      sundayLog ∈ g.logs ∧
      g.startDate = daysFromCivil 2024 3 4 * msPerDay ∧
      g.key = daysFromCivil 2024 3 4 ∧
      g.endDate = daysFromCivil 2024 3 9 * msPerDay + (msPerDay - 1) := by
  refine ⟨by decide, by decide, by decide, by decide, ?_⟩
  rcases groupLogsByWorkWeek_spec [sundayLog] 0 sundayLog (by simp) with
    ⟨g, hg, hmemg, hstart, hkey, hend, -, -, -, -⟩
  refine ⟨g, hg, hmemg, ?_, ?_, ?_⟩
  · rw [hstart]; decide
  · rw [hkey, hstart]; decide
  · rw [hend, hstart]; decide

/-- Leap-year rule of the host `Date`'s proleptic Gregorian calendar. -/
def isLeapYear (y : Int) : Bool :=
  decide ((y % 4 = 0 ∧ y % 100 ≠ 0) ∨ y % 400 = 0)

/-- `new Date(year, monthIndex + 1, 0).getDate()`: the day count of a zero-based
month of the host calendar (months beyond index 11 never reach this model: the
parsed month input is restricted to 1..12). -/
def daysInMonth (y : Int) (monthIndex : Nat) : Nat :=
  match monthIndex with
  | 0 => 31
  | 1 => if isLeapYear y then 29 else 28
  | 2 => 31
  | 3 => 30
  | 4 => 31
  | 5 => 30
  | 6 => 31
  | 7 => 31
  | 8 => 30
  | 9 => 31
  | 10 => 30
  | _ => 31

/-- `(new Date(year, monthIndex, 1).getDay() + 6) % 7`
(`src/unnamed/part_000:182-183`), the Monday-relative weekday offset of day 1. -/
def calendarOffset (year : Int) (monthIndex : Nat) : Nat :=
  ((dayOfWeek (daysFromCivil year ((monthIndex : Int) + 1) 1) + 6) % 7).toNat


/-- `buildCalendarCells` (`src/unnamed/part_000:177-202`) after the month-input
parse: a cell is `none` for an empty placeholder and `some (year, monthIndex, day)`
for the local-midnight date of that day. -/
def buildCalendarCells (year : Int) (monthIndex : Nat) : List (Option (Int × Nat × Nat)) :=
  let firstWeekdayMondayIndex := calendarOffset year monthIndex
  let dim := daysInMonth year monthIndex
  let totalCells := ((firstWeekdayMondayIndex + dim + 6) / 7) * 7
  (List.range totalCells).map (fun (index : Nat) =>
    let day : Int := (index : Int) - firstWeekdayMondayIndex + 1
    if day < 1 ∨ (dim : Int) < day then none
    else some (year, monthIndex, day.toNat))

/-- Unfolded form of `buildCalendarCells`, for indexing lemmas. -/
theorem buildCalendarCells_eq (year : Int) (monthIndex : Nat) :
    buildCalendarCells year monthIndex =
      (List.range (((calendarOffset year monthIndex + daysInMonth year monthIndex + 6) / 7) * 7)).map
        (fun (index : Nat) =>
          if ((index : Int) - calendarOffset year monthIndex + 1) < 1 ∨
              ((daysInMonth year monthIndex : Int)) <
                ((index : Int) - calendarOffset year monthIndex + 1) then none
          else some (year, monthIndex,
            ((index : Int) - calendarOffset year monthIndex + 1).toNat)) := rfl

/-- Helper: grid length is the cell count rounded up to a multiple of 7. -/
theorem buildCalendarCells_length (year : Int) (monthIndex : Nat) :
    (buildCalendarCells year monthIndex).length =
      ((calendarOffset year monthIndex + daysInMonth year monthIndex + 6) / 7) * 7 := by
  rw [buildCalendarCells_eq, List.length_map, List.length_range]

/-- C9: for every year and zero-based month index the grid has exactly
`ceil((offset + daysInMonth)/7) × 7` cells, where `offset = (firstWeekdayIndex + 6) % 7`
with weekday index 0 = Sunday: the first `offset` cells are empty placeholders,
the next `daysInMonth` cells carry local-midnight dates whose day-of-month
increases strictly by 1 from 1 to `daysInMonth`, and all trailing cells are
empty placeholders. -/
theorem buildCalendarCells_spec (year : Int) (monthIndex : Nat) (hm : monthIndex < 12) :
    (buildCalendarCells year monthIndex).length =
      ((calendarOffset year monthIndex + daysInMonth year monthIndex + 6) / 7) * 7 ∧
    (∀ i (hi : i < (buildCalendarCells year monthIndex).length),
      (i < calendarOffset year monthIndex →
        (buildCalendarCells year monthIndex).get ⟨i, hi⟩ = none) ∧
      (calendarOffset year monthIndex ≤ i →
        i < calendarOffset year monthIndex + daysInMonth year monthIndex →
        (buildCalendarCells year monthIndex).get ⟨i, hi⟩ =
          some (year, monthIndex, i - calendarOffset year monthIndex + 1)) ∧
      (calendarOffset year monthIndex + daysInMonth year monthIndex ≤ i →
        (buildCalendarCells year monthIndex).get ⟨i, hi⟩ = none)) := by
  refine ⟨buildCalendarCells_length year monthIndex, ?_⟩
  intro i hi
  have hcell : (buildCalendarCells year monthIndex).get ⟨i, hi⟩ =
      (if ((i : Int) - calendarOffset year monthIndex + 1) < 1 ∨
          ((daysInMonth year monthIndex : Int)) <
            ((i : Int) - calendarOffset year monthIndex + 1) then none
       else some (year, monthIndex,
         ((i : Int) - calendarOffset year monthIndex + 1).toNat)) := by
    simp only [List.get_eq_getElem, buildCalendarCells_eq, List.getElem_map, List.getElem_range]
  refine ⟨?_, ?_, ?_⟩
  · intro hlt
    rw [hcell, if_pos (Or.inl (by omega))]
  · intro hge hub
    rw [hcell, if_neg (by omega)]
    have htn : ((i : Int) - calendarOffset year monthIndex + 1).toNat =
        i - calendarOffset year monthIndex + 1 := by omega
    rw [htn]
  · intro hge
    rw [hcell, if_pos (Or.inr (by omega))]

/-- C9 witness: November 2023 (zero-based month 10) has 30 days and starts on a
Wednesday (Monday-relative offset 2), giving 35 cells: cells 0-1 blank, cells
2..31 carrying days 1..30, cells 32-34 blank. -/
theorem buildCalendarCells_spec_witness :
    (10 : Nat) < 12 ∧
    calendarOffset 2023 10 = 2 ∧
    daysInMonth 2023 10 = 30 ∧
    (buildCalendarCells 2023 10).length = 35 ∧
    (buildCalendarCells 2023 10)[0]? = some none ∧
    (buildCalendarCells 2023 10)[2]? = some (some (2023, 10, 1)) ∧
    (buildCalendarCells 2023 10)[31]? = some (some (2023, 10, 30)) ∧
    (buildCalendarCells 2023 10)[32]? = some none := by
  have h := (buildCalendarCells_spec 2023 10 (by decide)).1
  refine ⟨by decide, by decide, by decide, ?_, by decide, by decide, by decide, by decide⟩
  rw [h]
  decide

/-- `DailyReportPoint` from `tracker-types`; `dayLabel` (a locale-formatted
weekday string, presentation only) is omitted. -/
structure DailyReportPoint where
  dayKey : Int
  minutes : Int
  hours : ℚ
  earnings : ℚ
deriving DecidableEq, Repr

/-- JS `Map.has`, on an insertion-ordered association list. -/
def mapHas (m : List (Int × Int)) (k : Int) : Bool := m.any (fun e => e.1 = k)

/-- JS `Map.get`: the value at the (unique) matching key, if any. -/
def mapGet (m : List (Int × Int)) (k : Int) : Option Int :=
  (m.find? (fun e => e.1 = k)).map Prod.snd

/-- JS `Map.set`: replace in place when the key exists, else append (JS maps
iterate in insertion order, and re-setting a key keeps its position). -/
def mapSet : List (Int × Int) → Int → Int → List (Int × Int)
  | [], k, v => [(k, v)]
  | e :: rest, k, v => if e.1 = k then (k, v) :: rest else e :: mapSet rest k v

theorem mapHas_append (m₁ m₂ : List (Int × Int)) (k : Int) :
    mapHas (m₁ ++ m₂) k = (mapHas m₁ k || mapHas m₂ k) :=
  List.any_append

theorem mapSet_keys_of_has (k v : Int) :
    ∀ m : List (Int × Int), mapHas m k = true →
      (mapSet m k v).map Prod.fst = m.map Prod.fst := by
  intro m
  induction m with
  | nil => intro h; simp [mapHas] at h
  | cons e rest ih =>
      intro h
      by_cases he : e.1 = k
      · rw [mapSet, if_pos he]
        simp [he]
      · rw [mapSet, if_neg he]
        have hrest : mapHas rest k = true := by
          simp only [mapHas, List.any_cons, Bool.or_eq_true, decide_eq_true_eq] at h
          rcases h with h | h
          · exact absurd h he
          · exact h
        simp [ih hrest]

theorem mapSet_of_not_has (k v : Int) :
    ∀ m : List (Int × Int), mapHas m k = false → mapSet m k v = m ++ [(k, v)] := by
  intro m
  induction m with
  | nil => intro _; rfl
  | cons e rest ih =>
      intro h
      simp only [mapHas, List.any_cons, Bool.or_eq_false_iff, decide_eq_false_iff_not] at h
      rw [mapSet, if_neg h.1, ih (by simp [mapHas, h.2])]
      rfl

theorem mapHas_eq_keys (m : List (Int × Int)) (k : Int) :
    mapHas m k = (m.map Prod.fst).any (fun x => x = k) := by
  induction m with
  | nil => rfl
  | cons e rest ih =>
      simp only [mapHas] at ih ⊢
      rw [List.map_cons, List.any_cons, List.any_cons, ih]

theorem mapHas_mapSet (m : List (Int × Int)) (k v : Int) (hhas : mapHas m k = true)
    (k' : Int) : mapHas (mapSet m k v) k' = mapHas m k' := by
  rw [mapHas_eq_keys, mapHas_eq_keys, mapSet_keys_of_has k v m hhas]

theorem mapSet_snd_sum (k x : Int) :
    ∀ m : List (Int × Int), mapHas m k = true →
      ((mapSet m k ((mapGet m k).getD 0 + x)).map Prod.snd).sum =
        (m.map Prod.snd).sum + x := by
  intro m
  induction m with
  | nil => intro h; simp [mapHas] at h
  | cons e rest ih =>
      intro h
      by_cases he : e.1 = k
      · have hfind : List.find? (fun p => decide (p.1 = k)) (e :: rest) = some e :=
          List.find?_cons_of_pos _ (by simp [he])
        rw [mapSet, if_pos he]
        simp only [mapGet, hfind]
        simp only [Option.map_some', Option.getD_some, List.map_cons, List.sum_cons]
        omega
      · have hrest : mapHas rest k = true := by
          simp only [mapHas, List.any_cons, Bool.or_eq_true, decide_eq_true_eq] at h
          rcases h with h | h
          · exact absurd h he
          · exact h
        have hfind : List.find? (fun p => decide (p.1 = k)) (e :: rest) =
            List.find? (fun p => decide (p.1 = k)) rest :=
          List.find?_cons_of_neg _ (by simp [he])
        rw [mapSet, if_neg he]
        simp only [mapGet, hfind, List.map_cons, List.sum_cons]
        have := ih hrest
        simp only [mapGet] at this
        omega

/-- The seeding loop of `buildLastDaysReport` (`src/lib/tracker-utils.ts:144-148`):
`for (offset = days - 1; offset >= 0; offset -= 1) set(toDayKey(now - offset days), 0)`.
`initDays now n m` runs the iterations for offsets `n-1, n-2, …, 0` in that order
(`setDate(now.getDate() - offset)` is `now - offset·msPerDay` in the fixed-offset
local-clock model). -/
def initDays (now : Int) : Nat → List (Int × Int) → List (Int × Int)
  | 0, m => m
  | k + 1, m => initDays now k (mapSet m (toDayKey (now - (k : Int) * msPerDay)) 0)

/-- The accumulation loop of `buildLastDaysReport` (`src/lib/tracker-utils.ts:150-159`):
skip logs whose start-day key was not seeded, else add their display minutes. -/
def accumulateLogs (now : Int) : List (Int × Int) → List TimeLog → List (Int × Int)
  | m, [] => m
  | m, log :: rest =>
      if mapHas m (toDayKey log.startTime) then
        accumulateLogs now
          (mapSet m (toDayKey log.startTime)
            ((mapGet m (toDayKey log.startTime)).getD 0 + getLogMinutes log now)) rest
      else accumulateLogs now m rest

/-- `buildLastDaysReport` (`src/lib/tracker-utils.ts:136-172`): seed one zero
bucket per day of the trailing window, accumulate display minutes of matching
logs, then emit the points in insertion (oldest-first) order. -/
def buildLastDaysReport (logs : List TimeLog) (days : Nat) (hourlyRate : ℚ)
    (now : Int) : List DailyReportPoint :=
  let seeded := initDays now days []
  let filled := accumulateLogs now seeded logs
  filled.map (fun e =>
    { dayKey := e.1
      minutes := e.2
      hours := (e.2 : ℚ) / 60
      earnings := ((e.2 : ℚ) / 60) * hourlyRate })

theorem toDayKey_sub_days (now : Int) (k : Nat) :
    toDayKey (now - (k : Int) * msPerDay) = toDayKey now - k := by
  simp only [toDayKey, msPerDay]
  omega


theorem initDays_eq (now : Int) :
    ∀ (n : Nat) (m : List (Int × Int)),
      (∀ j : Nat, j < n → mapHas m (toDayKey now - j) = false) →
      initDays now n m =
        m ++ (List.range n).map
          (fun (i : Nat) => (toDayKey now - n + 1 + (i : Int), (0 : Int))) := by
  intro n
  induction n with
  | zero => intro m _; simp [initDays]
  | succ n ih =>
      intro m h
      rw [initDays, toDayKey_sub_days,
        mapSet_of_not_has _ _ m (h n (Nat.lt_succ_self n)),
        ih (m ++ [(toDayKey now - n, 0)]) ?_]
      · rw [List.append_assoc]
        congr 1
        rw [List.singleton_append, List.range_succ_eq_map, List.map_cons, List.map_map]
        congr 1
        · congr 1
          push_cast
          ring
        · apply List.map_congr_left
          intro i hi
          simp only [Function.comp_apply]
          congr 1
          push_cast
          ring
      · intro j hj
        rw [mapHas_append, h j (Nat.lt_succ_of_lt hj)]
        simp only [Bool.false_or, mapHas, List.any_cons, List.any_nil, Bool.or_false,
          decide_eq_false_iff_not]
        intro hcontra
        omega

theorem mapHas_initDays (now : Int) (days : Nat) (k : Int) :
    mapHas (initDays now days []) k = true ↔
      (toDayKey now - days < k ∧ k ≤ toDayKey now) := by
  rw [initDays_eq now days [] (fun j _ => rfl), List.nil_append, mapHas_eq_keys,
    List.map_map]
  simp only [List.any_eq_true, List.mem_map, List.mem_range, Function.comp_apply,
    decide_eq_true_eq]
  constructor
  · rintro ⟨x, ⟨i, hi, rfl⟩, rfl⟩
    omega
  · rintro ⟨h1, h2⟩
    exact ⟨k, ⟨(k - (toDayKey now - days + 1)).toNat, by omega, by omega⟩, rfl⟩

theorem accumulateLogs_keys (now : Int) :
    ∀ (logs : List TimeLog) (m : List (Int × Int)),
      (accumulateLogs now m logs).map Prod.fst = m.map Prod.fst := by
  intro logs
  induction logs with
  | nil => intro m; rfl
  | cons log rest ih =>
      intro m
      by_cases hhas : mapHas m (toDayKey log.startTime) = true
      · rw [accumulateLogs, if_pos hhas, ih, mapSet_keys_of_has _ _ m hhas]
      · rw [accumulateLogs, if_neg hhas, ih]

theorem accumulateLogs_sum (now : Int) :
    ∀ (logs : List TimeLog) (m : List (Int × Int)),
      ((accumulateLogs now m logs).map Prod.snd).sum =
        (m.map Prod.snd).sum +
          ((logs.filter (fun log => mapHas m (toDayKey log.startTime))).map
            (fun log => getLogMinutes log now)).sum := by
  intro logs
  induction logs with
  | nil => intro m; simp [accumulateLogs]
  | cons log rest ih =>
      intro m
      by_cases hhas : mapHas m (toDayKey log.startTime) = true
      · rw [accumulateLogs, if_pos hhas, ih]
        have hfilter : rest.filter (fun l =>
            mapHas (mapSet m (toDayKey log.startTime)
              ((mapGet m (toDayKey log.startTime)).getD 0 + getLogMinutes log now))
              (toDayKey l.startTime)) =
            rest.filter (fun l => mapHas m (toDayKey l.startTime)) :=
          List.filter_congr (fun l _ => mapHas_mapSet m _ _ hhas _)
        have hcons : (log :: rest).filter (fun l => mapHas m (toDayKey l.startTime)) =
            log :: rest.filter (fun l => mapHas m (toDayKey l.startTime)) :=
          List.filter_cons_of_pos hhas
        rw [hfilter, mapSet_snd_sum _ _ m hhas, hcons, List.map_cons, List.sum_cons]
        omega
      · have hcons : (log :: rest).filter (fun l => mapHas m (toDayKey l.startTime)) =
            rest.filter (fun l => mapHas m (toDayKey l.startTime)) :=
          List.filter_cons_of_neg hhas
        rw [accumulateLogs, if_neg hhas, ih, hcons]

/-- C6: for every log list, window length `N ≥ 1`, hourly rate and reference
instant, the report has exactly `N` points — one per calendar day of the window
ending at `now`'s day inclusive, oldest first, present even at 0 minutes — each
with `hours = minutes/60` and `earnings = hours × hourlyRate`; and the points'
minutes sum to the display minutes of exactly the logs whose start day falls in
the window. -/
theorem buildLastDaysReport_spec (logs : List TimeLog) (days : Nat) (hourlyRate : ℚ)
    (now : Int) (hd : 1 ≤ days) :
    (buildLastDaysReport logs days hourlyRate now).length = days ∧
    (∀ i (hi : i < (buildLastDaysReport logs days hourlyRate now).length),
      ((buildLastDaysReport logs days hourlyRate now).get ⟨i, hi⟩).dayKey =
        toDayKey now - days + 1 + i ∧
      ((buildLastDaysReport logs days hourlyRate now).get ⟨i, hi⟩).hours =
        (((buildLastDaysReport logs days hourlyRate now).get ⟨i, hi⟩).minutes : ℚ) / 60 ∧
      ((buildLastDaysReport logs days hourlyRate now).get ⟨i, hi⟩).earnings =
        ((buildLastDaysReport logs days hourlyRate now).get ⟨i, hi⟩).hours * hourlyRate) ∧
    ((buildLastDaysReport logs days hourlyRate now).map (fun p => p.minutes)).sum =
      ((logs.filter (fun log =>
          toDayKey now - days < toDayKey log.startTime ∧
            toDayKey log.startTime ≤ toDayKey now)).map
        (fun log => getLogMinutes log now)).sum := by
  have hseed : initDays now days [] = (List.range days).map
      (fun (i : Nat) => (toDayKey now - days + 1 + (i : Int), (0 : Int))) := by
    rw [initDays_eq now days [] (fun j _ => rfl), List.nil_append]
  have hkeys := accumulateLogs_keys now logs (initDays now days [])
  have hkeq : (accumulateLogs now (initDays now days []) logs).map Prod.fst =
      (List.range days).map (fun (j : Nat) => toDayKey now - days + 1 + (j : Int)) := by
    rw [hkeys, hseed, List.map_map]
    rfl
  have hlen2 : (accumulateLogs now (initDays now days []) logs).length = days := by
    have h1 := congrArg List.length hkeq
    simp only [List.length_map, List.length_range] at h1
    exact h1
  refine ⟨?_, ?_, ?_⟩
  · simp only [buildLastDaysReport, List.length_map]
    exact hlen2
  · intro i hi
    have hi2 : i < (accumulateLogs now (initDays now days []) logs).length := by
      simpa only [buildLastDaysReport, List.length_map] using hi
    have hcell : (buildLastDaysReport logs days hourlyRate now).get ⟨i, hi⟩ =
        { dayKey := ((accumulateLogs now (initDays now days []) logs).get ⟨i, hi2⟩).1
          minutes := ((accumulateLogs now (initDays now days []) logs).get ⟨i, hi2⟩).2
          hours := (((accumulateLogs now (initDays now days []) logs).get ⟨i, hi2⟩).2 : ℚ) / 60
          earnings :=
            ((((accumulateLogs now (initDays now days []) logs).get ⟨i, hi2⟩).2 : ℚ) / 60) *
              hourlyRate } := by
      simp only [buildLastDaysReport, List.get_eq_getElem, List.getElem_map]
    have hkey : ((accumulateLogs now (initDays now days []) logs).get ⟨i, hi2⟩).1 =
        toDayKey now - days + 1 + (i : Int) := by
      have hb : i < ((accumulateLogs now (initDays now days []) logs).map Prod.fst).length := by
        simpa only [List.length_map] using hi2
      have h2 := List.getElem_of_eq hkeq hb
      simp only [List.getElem_map, List.getElem_range] at h2
      simpa only [List.get_eq_getElem] using h2
    refine ⟨?_, ?_, ?_⟩
    · rw [hcell]
      exact hkey
    · rw [hcell]
    · rw [hcell]
  · have hmaps : (buildLastDaysReport logs days hourlyRate now).map (fun p => p.minutes) =
        (accumulateLogs now (initDays now days []) logs).map Prod.snd := by
      simp only [buildLastDaysReport, List.map_map]
      rfl
    rw [hmaps, accumulateLogs_sum now logs (initDays now days [])]
    have hzero : ((initDays now days []).map Prod.snd).sum = 0 := by
      apply List.sum_eq_zero
      intro x hx
      rw [hseed, List.map_map] at hx
      rcases List.mem_map.mp hx with ⟨j, _, rfl⟩
      rfl
    have hfilter : logs.filter (fun log =>
        mapHas (initDays now days []) (toDayKey log.startTime)) =
        logs.filter (fun log =>
          toDayKey now - days < toDayKey log.startTime ∧
            toDayKey log.startTime ≤ toDayKey now) := by
      apply List.filter_congr
      intro log _
      rw [Bool.eq_iff_iff, mapHas_initDays now days (toDayKey log.startTime)]
      simp only [decide_eq_true_eq]
    rw [hzero, hfilter, zero_add]

/-- A completed one-hour entry on day 1 (inside a 3-day window ending day 2). -/
def reportLogInside : TimeLog :=
  ⟨"A", msPerDay + 32400000, some (msPerDay + 36000000), 60, 0, [], .completed, none⟩

/-- A completed entry on day -1 (outside that window). -/
def reportLogOutside : TimeLog :=
  ⟨"B", -msPerDay, some (-msPerDay + 600000), 10, 0, [], .completed, none⟩

/-- C6 witness: a 3-day window ending on day 2 at 01:00 yields exactly 3 points;
only the day-1 entry (60 display minutes) is counted, the day -1 entry is
excluded; the points are days 0, 1, 2 oldest first with minutes 0, 60, 0. -/
theorem buildLastDaysReport_spec_witness :
    (1 : Nat) ≤ 3 ∧
    (buildLastDaysReport [reportLogInside, reportLogOutside] 3 10
      (2 * msPerDay + 3600000)).length = 3 ∧
    ((buildLastDaysReport [reportLogInside, reportLogOutside] 3 10
      (2 * msPerDay + 3600000)).map (fun p => p.minutes)).sum = 60 ∧
    (buildLastDaysReport [reportLogInside, reportLogOutside] 3 10
      (2 * msPerDay + 3600000)).map (fun p => (p.dayKey, p.minutes)) =
      [(0, 0), (1, 60), (2, 0)] := by
  have h := buildLastDaysReport_spec [reportLogInside, reportLogOutside] 3 10
    (2 * msPerDay + 3600000) (by norm_num)
  refine ⟨by norm_num, h.1, ?_, by decide⟩
  rw [h.2.2]
  decide
